import Mathlib

/-!
Verification development for the 539 lottery repository.

Shallow embedding of the data-engine (fetcher, record normalizer, merge
store) and the statistics engine.  Calendar dates are embedded as natural
numbers via the ordinal encoding (year * 100 + month) * 100 + day, which is
order-isomorphic to the chronological order used by the code (pandas
datetime comparisons on ISO "YYYY-MM-DD" strings).  Pandas DataFrames are
embedded as Lean lists of records in row order; Python dicts (which preserve
insertion order) are embedded as association lists.
-/

namespace Lottery539

/-- Zero-padding to two digits, the Python format spec "02d" for the
values appearing in this program. -/
def pad2 (n : Nat) : String :=
  if n < 10 then "0" ++ toString n else toString n

/-- Calendar date as parsed from the lotteryDate field of a raw API item. -/
structure CalDate where
  year : Nat
  month : Nat
  day : Nat
deriving Repr, DecidableEq

/-- Ordinal encoding of a calendar date.  For genuine dates (month < 100,
day < 100) the numeric order coincides with chronological order, hence with
the datetime comparisons performed by the code. -/
def CalDate.toOrdinal (d : CalDate) : Nat :=
  (d.year * 100 + d.month) * 100 + d.day

/-- Raw API item as consumed by process_daily_cash_data.  A none field
models a missing key (Python KeyError) or an unparseable date string
(ValueError); either is caught by the except clause and the item skipped. -/
structure RawItem where
  lotteryDate : Option CalDate
  period : Option String
  drawNumberAppear : Option (List Nat)
deriving Repr, DecidableEq

/-- One row of the persisted table, with the columns written by
process_daily_cash_data.  The numbers column is kept as the list of
integers; the code stores it comma-joined zero-padded and parses it back to
the same list when loading. -/
structure DrawRecord where
  draw : String
  date : String
  ad_date : Nat
  numbers : List Nat
  price : Nat
  lottery_type : String
deriving Repr, DecidableEq

/-- Normalization of one raw item, the loop body of
process_daily_cash_data: take the first 5 drawn numbers, sort them
ascending, derive the localized display date (Gregorian year minus 1911)
and the ISO sorting date. -/
def processItem (item : RawItem) : Option DrawRecord :=
  match item.lotteryDate, item.period, item.drawNumberAppear with
  | some d, some p, some ns =>
      some { draw := p
             date := toString (d.year - 1911) ++ "/" ++ pad2 d.month ++ "/" ++ pad2 d.day
             ad_date := d.toOrdinal
             numbers := List.insertionSort (fun a b : Nat => a ≤ b) (ns.take 5)
             price := 8000000
             lottery_type := "daily_cash" }
  | _, _, _ => none

/-- process_daily_cash_data: normalize every raw item, skipping the ones
whose required fields are missing or malformed. -/
def process_daily_cash_data (raw : List RawItem) : List DrawRecord :=
  raw.filterMap processItem

/-- Maximum of two optional dates; none is the sentinel of the empty
table and acts as the neutral element. -/
def optionMax : Option Nat → Option Nat → Option Nat
  | none, b => b
  | some a, none => some a
  | some a, some b => some (max a b)

/-- get_latest_ad_date: the maximum ad_date of the table, or the none
sentinel if the table is empty (df['ad_date'].max()). -/
def get_latest_ad_date (df : List DrawRecord) : Option Nat :=
  df.foldr (fun r acc => optionMax (some r.ad_date) acc) none

/-- Date test of the incremental-update loop: a record is kept when there
is no existing data, or when its ad_date is strictly greater than the
latest existing ad_date. -/
def isNewer (latest : Option Nat) (r : DrawRecord) : Bool :=
  match latest with
  | none => true
  | some d => decide (d < r.ad_date)

/-- Accumulating loop over the processed records of
crawl_and_save_daily_cash: append each record that passes the date test to
all_new_records. -/
def collect_new_records (latest : Option Nat) (processed : List DrawRecord) :
    List DrawRecord :=
  processed.foldl (fun acc r => if isNewer latest r then acc ++ [r] else acc) []

/-- Worker of drop_duplicates(subset=['draw']): keep a row exactly when its
draw value has not been seen in an earlier row. -/
def dropDupAux (seen : List String) : List DrawRecord → List DrawRecord
  | [] => []
  | r :: rs =>
      if r.draw ∈ seen then dropDupAux seen rs
      else r :: dropDupAux (r.draw :: seen) rs

/-- drop_duplicates(subset=['draw']): keep the first occurrence of every
draw (period) value. -/
def drop_duplicates_by_draw (l : List DrawRecord) : List DrawRecord :=
  dropDupAux [] l

/-- Seen-set accumulated by dropDupAux after scanning a list of rows,
used to state how drop_duplicates acts on a concatenation. -/
def seenAfter (seen : List String) : List DrawRecord → List String
  | [] => seen
  | r :: rs =>
      if r.draw ∈ seen then seenAfter seen rs
      else seenAfter (r.draw :: seen) rs

/-- Row order used by sort_values(by='ad_date'), ascending. -/
def dateLe (a b : DrawRecord) : Prop := a.ad_date ≤ b.ad_date

instance : DecidableRel dateLe := fun a b => Nat.decLe a.ad_date b.ad_date

instance : IsTotal DrawRecord dateLe := ⟨fun a b => Nat.le_total a.ad_date b.ad_date⟩

instance : IsTrans DrawRecord dateLe := ⟨fun _ _ _ => Nat.le_trans⟩

/-- sort_values(by='ad_date'): sort the rows ascending by ad_date. -/
def sort_values_by_ad_date (l : List DrawRecord) : List DrawRecord :=
  List.insertionSort dateLe l

/-- Table transformation of crawl_and_save_daily_cash, lines 136 to 167:
filter the incoming batch by the date test against the existing table,
concatenate existing rows first, drop duplicate draw values keeping the
first occurrence, and sort ascending by ad_date.  When no incoming record
survives the date test the code never builds a combined frame and the
persisted table stays exactly as loaded. -/
def merge (existing incoming : List DrawRecord) : List DrawRecord :=
  let all_new := collect_new_records (get_latest_ad_date existing) incoming
  if all_new.isEmpty then existing
  else sort_values_by_ad_date (drop_duplicates_by_draw (existing ++ all_new))

/-- Merge pipeline exactly as the specification words it: discard incoming
records whose draw_date is not strictly greater than the latest existing
draw_date, concatenate the survivors after the existing records, remove
duplicate period values keeping the first occurrence, and sort the result
ascending by draw_date. -/
def merge_spec (existing incoming : List DrawRecord) : List DrawRecord :=
  sort_values_by_ad_date (drop_duplicates_by_draw
    (existing ++ incoming.filter (isNewer (get_latest_ad_date existing))))

/-- Outcome signaled by the tail of crawl_and_save_daily_cash: a written
combined table, a read-only already-up-to-date message, or the message
that no data could be obtained at all. -/
inductive CrawlOutcome where
  | written (table : List DrawRecord)
  | upToDate
  | noData
deriving Repr, DecidableEq

/-- Decision tail of crawl_and_save_daily_cash given the loaded existing
table and the processed records of the whole crawl: if any record passed
the date test, write the combined table; otherwise, if existing data is
present, signal already-up-to-date without writing; otherwise signal that
nothing was obtained.  The second component is the persisted table after
the run. -/
def crawl_and_save_daily_cash (existing processed : List DrawRecord) :
    CrawlOutcome × List DrawRecord :=
  let all_new := collect_new_records (get_latest_ad_date existing) processed
  if all_new.isEmpty then
    if existing.isEmpty then (CrawlOutcome.noData, existing)
    else (CrawlOutcome.upToDate, existing)
  else
    let combined := sort_values_by_ad_date (drop_duplicates_by_draw (existing ++ all_new))
    (CrawlOutcome.written combined, combined)

/-- Content object of a successful API response; the daily539Res key may
be absent. -/
structure FetchContent where
  daily539Res : Option (List RawItem)
deriving Repr, DecidableEq

/-- Empty dict returned by crawl_daily_cash on every handled failure. -/
def emptyContent : FetchContent := ⟨none⟩

/-- Parse outcome of the response body: a JSON parse error (raises
json.JSONDecodeError inside response.json()), a JSON document whose top
level is not an object, or an object with its optional rtCode and content
fields. -/
inductive JsonDoc where
  | malformed
  | nonObject
  | obj (rtCode : Option Int) (content : Option FetchContent)
deriving Repr, DecidableEq

/-- Result of the HTTP round trip performed by session.get plus
raise_for_status: either some requests.RequestException (network error,
timeout, non-2xx status) or a body to parse. -/
inductive HttpResult where
  | transportError
  | body (doc : JsonDoc)
deriving Repr, DecidableEq

/-- Result of running a Python callable: a returned value or an uncaught
exception propagating to the caller. -/
inductive PyResult (α : Type) where
  | ok (val : α)
  | raises (exc : String)
deriving Repr, DecidableEq

/-- crawl_daily_cash for one year-month page.  RequestException and
JSONDecodeError are caught and turned into the empty dict; a non-success
rtCode also yields the empty dict; on rtCode equal to 0 the content value
(defaulted to the empty dict) is returned.  When the parsed body is not an
object, the attribute access data.get raises AttributeError, which none of
the except clauses catches. -/
def crawl_daily_cash : HttpResult → PyResult FetchContent
  | HttpResult.transportError => PyResult.ok emptyContent
  | HttpResult.body JsonDoc.malformed => PyResult.ok emptyContent
  | HttpResult.body JsonDoc.nonObject => PyResult.raises "AttributeError"
  | HttpResult.body (JsonDoc.obj rtCode content) =>
      if rtCode = some 0 then PyResult.ok (content.getD emptyContent)
      else PyResult.ok emptyContent

/-- get_latest_n_draws: the last n rows of the table (DataFrame.tail). -/
def get_latest_n_draws (df : List DrawRecord) (n : Nat) : List DrawRecord :=
  if df.isEmpty then [] else df.drop (df.length - n)

/-- Window selection shared by every statistics query: the whole table
when num_draws is None, otherwise the latest num_draws rows. -/
def windowed (df : List DrawRecord) (num_draws : Option Nat) : List DrawRecord :=
  match num_draws with
  | none => df
  | some n => get_latest_n_draws df n

/-- calculate_frequency: on an empty window the empty dict; otherwise the
dict keyed 1 to 39 in order, each key mapped to the number of appearances
of that number across the window (value_counts reindexed over the full
range with zero fill). -/
def calculate_frequency (df : List DrawRecord) (num_draws : Option Nat) :
    List (Nat × Nat) :=
  let target := windowed df num_draws
  if target.isEmpty then []
  else
    let all_numbers := target.flatMap (fun r => r.numbers)
    (List.range' 1 39).map (fun k => (k, all_numbers.count k))

/-- analyze_last_digits: on an empty window the empty dict; otherwise the
dict keyed 0 to 9 in order, each key mapped to the number of drawn values
with that last digit across the window. -/
def analyze_last_digits (df : List DrawRecord) (num_draws : Option Nat) :
    List (Nat × Nat) :=
  let target := windowed df num_draws
  if target.isEmpty then []
  else
    let all_last_digits := target.flatMap (fun r => r.numbers.map (fun n => n % 10))
    (List.range' 0 10).map (fun k => (k, all_last_digits.count k))

/-- Mean of a list of sums as an exact rational (pandas Series.mean). -/
def meanQ (l : List Nat) : ℚ := (l.sum : ℚ) / (l.length : ℚ)

/-- Median of a list of sums as an exact rational (pandas Series.median):
middle element of the sorted list, or the average of the two middle
elements for an even length. -/
def medianQ (l : List Nat) : ℚ :=
  let s := List.insertionSort (fun a b : Nat => a ≤ b) l
  if s.length % 2 = 1 then (s.getD (s.length / 2) 0 : ℚ)
  else ((s.getD (s.length / 2 - 1) 0 : ℚ) + (s.getD (s.length / 2) 0 : ℚ)) / 2

/-- Sample variance as an exact rational.  pandas Series.std returns its
floating-point square root; the claims checked here only inspect whether
the statistic is None on an empty window, never its numeric value, so the
rational variance stands in for the irrational standard deviation. -/
def sampleVarQ (l : List Nat) : ℚ :=
  (l.map (fun x => ((x : ℚ) - meanQ l) ^ 2)).sum / ((l.length : ℚ) - 1)

/-- Minimum of the per-draw sums, none for an empty list. -/
def optionListMin (l : List Nat) : Option Nat :=
  l.foldr (fun x acc => match acc with
    | none => some x
    | some y => some (min x y)) none

/-- Maximum of the per-draw sums, none for an empty list. -/
def optionListMax (l : List Nat) : Option Nat :=
  l.foldr (fun x acc => match acc with
    | none => some x
    | some y => some (max x y)) none

/-- Return value of calculate_sum_analysis; every scalar field is optional
because the empty-window branch returns None for each of them. -/
structure SumAnalysis where
  sums : List Nat
  mean_sum : Option ℚ
  median_sum : Option ℚ
  std_dev_sum : Option ℚ
  min_sum : Option Nat
  max_sum : Option Nat
deriving Repr, DecidableEq

/-- calculate_sum_analysis: per-draw sums of the window together with
mean, median, standard deviation (embedded as the sample variance, see
sampleVarQ), minimum and maximum; all None with an empty sums list on an
empty window. -/
def calculate_sum_analysis (df : List DrawRecord) (num_draws : Option Nat) :
    SumAnalysis :=
  let target := windowed df num_draws
  if target.isEmpty then
    { sums := [], mean_sum := none, median_sum := none, std_dev_sum := none,
      min_sum := none, max_sum := none }
  else
    let sums := target.map (fun r => r.numbers.sum)
    { sums := sums
      mean_sum := some (meanQ sums)
      median_sum := some (medianQ sums)
      std_dev_sum := some (sampleVarQ sums)
      min_sum := optionListMin sums
      max_sum := optionListMax sums }

/-- Increment of a Python dict entry, d[k] = d.get(k, 0) + 1, on an
insertion-ordered association list. -/
def bumpCount (d : List (String × Nat)) (k : String) : List (String × Nat) :=
  match d with
  | [] => [(k, 1)]
  | (k0, c) :: rest =>
      if k0 = k then (k0, c + 1) :: rest else (k0, c) :: bumpCount rest k

/-- Order used by dict(sorted(d.items())).  Python sorts the (key, value)
tuples lexicographically; the keys of a dict are distinct, so sorting by
key alone produces the same list. -/
def keyLe (a b : String × Nat) : Prop := a.1 ≤ b.1

instance : DecidableRel keyLe := fun a b => inferInstanceAs (Decidable (a.1 ≤ b.1))

instance : IsTotal (String × Nat) keyLe := ⟨fun a b => le_total a.1 b.1⟩

instance : IsTrans (String × Nat) keyLe := ⟨fun _ _ _ => le_trans⟩

/-- dict(sorted(d.items())) on an association list with distinct keys. -/
def dict_sorted (d : List (String × Nat)) : List (String × Nat) :=
  List.insertionSort keyLe d

/-- Values appearing in the dict returned by
calculate_odd_even_big_small_ratios. -/
inductive StatVal where
  | strs (l : List String)
  | dist (d : List (String × Nat))
deriving Repr, DecidableEq

/-- Per-row accumulators of calculate_odd_even_big_small_ratios. -/
structure RatioAcc where
  odd_even_ratios : List String
  big_small_ratios : List String
  odd_even_counts : List (String × Nat)
  big_small_counts : List (String × Nat)
deriving Repr, DecidableEq

/-- Loop body of calculate_odd_even_big_small_ratios: classify the five
numbers of one row as odd or even and as small (1 to 19) or big, record
the ratio strings and bump the two label-keyed distributions.  The counts
are integers because the Python expression 5 - odd_count may go negative
on a malformed row. -/
def ratioStep (acc : RatioAcc) (r : DrawRecord) : RatioAcc :=
  let odd_count : Int := (r.numbers.countP (fun n => n % 2 != 0) : Nat)
  let even_count : Int := 5 - odd_count
  let small_count : Int := (r.numbers.countP (fun n => decide (1 ≤ n ∧ n ≤ 19)) : Nat)
  let big_count : Int := 5 - small_count
  { odd_even_ratios :=
      acc.odd_even_ratios ++ [toString odd_count ++ ":" ++ toString even_count]
    big_small_ratios :=
      acc.big_small_ratios ++ [toString big_count ++ ":" ++ toString small_count]
    odd_even_counts :=
      bumpCount acc.odd_even_counts (toString odd_count ++ "奇" ++ toString even_count ++ "偶")
    big_small_counts :=
      bumpCount acc.big_small_counts (toString big_count ++ "大" ++ toString small_count ++ "小") }

/-- calculate_odd_even_big_small_ratios: note that the empty-window branch
and the non-empty branch return dicts with different key sets: the former
has odd_even_counts and big_small_counts, the latter has
odd_even_distribution and big_small_distribution. -/
def calculate_odd_even_big_small_ratios (df : List DrawRecord)
    (num_draws : Option Nat) : List (String × StatVal) :=
  let target := windowed df num_draws
  if target.isEmpty then
    [("odd_even_ratios", StatVal.strs []),
     ("big_small_ratios", StatVal.strs []),
     ("odd_even_counts", StatVal.dist []),
     ("big_small_counts", StatVal.dist [])]
  else
    let acc := target.foldl ratioStep ⟨[], [], [], []⟩
    [("odd_even_ratios", StatVal.strs acc.odd_even_ratios),
     ("big_small_ratios", StatVal.strs acc.big_small_ratios),
     ("odd_even_distribution", StatVal.dist (dict_sorted acc.odd_even_counts)),
     ("big_small_distribution", StatVal.dist (dict_sorted acc.big_small_counts))]

/-- Adjacent pairs differing by exactly 1 in the sorted numbers of one
draw, rendered as the zero-padded pattern string of the inner loop of
analyze_consecutive_numbers. -/
def consecPairs (numbers : List Nat) : List String :=
  let s := List.insertionSort (fun a b : Nat => a ≤ b) numbers
  (s.zip s.tail).filterMap (fun ab =>
    if ab.2 - ab.1 = 1 then some (pad2 ab.1 ++ "," ++ pad2 ab.2) else none)

/-- Loop body of analyze_consecutive_numbers over one row: bump the
pattern count once per consecutive pair, and bump the draw-level tally at
most once per row via the has_consecutive flag (the flag ends true exactly
when the row produced at least one pattern). -/
def consecStep (acc : List (String × Nat) × Nat) (r : DrawRecord) :
    List (String × Nat) × Nat :=
  let pats := consecPairs r.numbers
  (pats.foldl bumpCount acc.1, if pats.isEmpty then acc.2 else acc.2 + 1)

/-- Values appearing in the dict returned by
analyze_consecutive_numbers. -/
inductive ConsecVal where
  | dist (d : List (String × Nat))
  | nat (n : Nat)
  | rat (q : ℚ)
deriving Repr, DecidableEq

/-- analyze_consecutive_numbers: note that the empty-window branch returns
a dict without the percentage_with_consecutive key. -/
def analyze_consecutive_numbers (df : List DrawRecord)
    (num_draws : Option Nat) : List (String × ConsecVal) :=
  let target := windowed df num_draws
  if target.isEmpty then
    [("consecutive_patterns", ConsecVal.dist []),
     ("total_draws_with_consecutive", ConsecVal.nat 0)]
  else
    let res := target.foldl consecStep ([], 0)
    [("consecutive_patterns", ConsecVal.dist (dict_sorted res.1)),
     ("total_draws_with_consecutive", ConsecVal.nat res.2),
     ("percentage_with_consecutive",
        ConsecVal.rat (if 0 < target.length then
          ((res.2 : ℚ) / (target.length : ℚ)) * 100 else 0))]

/-- Record invariant asserted by the specification for the numbers field:
exactly 5 entries, each in the range 1 to 39, no duplicates. -/
def validNumbers (ns : List Nat) : Prop :=
  ns.length = 5 ∧ (∀ n ∈ ns, 1 ≤ n ∧ n ≤ 39) ∧ ns.Nodup

instance (ns : List Nat) : Decidable (validNumbers ns) :=
  inferInstanceAs (Decidable (_ ∧ _ ∧ _))

/-- Record with the given period and ad_date and otherwise fixed fields,
used to build concrete tables in witnesses and counterexamples. -/
def mkRec (p : String) (d : Nat) : DrawRecord :=
  { draw := p, date := "", ad_date := d, numbers := [1, 2, 3, 4, 5],
    price := 8000000, lottery_type := "daily_cash" }

/-! Helper lemmas: the accumulating loop is a filter. -/

theorem collect_eq_filter (latest : Option Nat) (processed : List DrawRecord) :
    collect_new_records latest processed = processed.filter (isNewer latest) := by
  have h : ∀ (l : List DrawRecord) (acc : List DrawRecord),
      l.foldl (fun acc r => if isNewer latest r then acc ++ [r] else acc) acc
        = acc ++ l.filter (isNewer latest) := by
    intro l
    induction l with
    | nil => intro acc; simp
    | cons r rs ih =>
        intro acc
        by_cases hr : isNewer latest r = true
        · simp [List.filter_cons, hr, ih]
        · simp [List.filter_cons, hr, ih]
  simpa using h processed []

/-! Helper lemmas: optionMax is a commutative monoid operation with the
none sentinel as neutral element. -/

theorem optionMax_none_right (a : Option Nat) : optionMax a none = a := by
  cases a <;> rfl

theorem optionMax_assoc (a b c : Option Nat) :
    optionMax (optionMax a b) c = optionMax a (optionMax b c) := by
  cases a <;> cases b <;> cases c <;> simp [optionMax, Nat.max_assoc]

theorem optionMax_comm (a b : Option Nat) : optionMax a b = optionMax b a := by
  cases a <;> cases b <;> simp [optionMax, Nat.max_comm]

/-! Helper lemmas: get_latest_ad_date. -/

theorem latest_cons (r : DrawRecord) (rs : List DrawRecord) :
    get_latest_ad_date (r :: rs)
      = optionMax (some r.ad_date) (get_latest_ad_date rs) := rfl

theorem latest_foldr_init (l : List DrawRecord) (init : Option Nat) :
    l.foldr (fun r acc => optionMax (some r.ad_date) acc) init
      = optionMax (get_latest_ad_date l) init := by
  induction l with
  | nil => rfl
  | cons r rs ih =>
      show optionMax (some r.ad_date) (rs.foldr _ init) = _
      rw [ih, latest_cons, optionMax_assoc]

theorem latest_append (l m : List DrawRecord) :
    get_latest_ad_date (l ++ m)
      = optionMax (get_latest_ad_date l) (get_latest_ad_date m) := by
  show (l ++ m).foldr _ none = _
  rw [List.foldr_append]
  exact latest_foldr_init l (get_latest_ad_date m)

theorem latest_perm {l m : List DrawRecord} (h : l.Perm m) :
    get_latest_ad_date l = get_latest_ad_date m := by
  induction h with
  | nil => rfl
  | cons x _ ih => rw [latest_cons, latest_cons, ih]
  | swap x y l =>
      rw [latest_cons, latest_cons, latest_cons, latest_cons,
        ← optionMax_assoc, ← optionMax_assoc,
        optionMax_comm (some y.ad_date) (some x.ad_date)]
  | trans _ _ ih1 ih2 => rw [ih1, ih2]

theorem latest_eq_none_iff (l : List DrawRecord) :
    get_latest_ad_date l = none ↔ l = [] := by
  cases l with
  | nil => simp [get_latest_ad_date]
  | cons a rs =>
      rw [latest_cons]
      cases get_latest_ad_date rs <;> simp [optionMax]

theorem latest_isSome_of_ne_nil {l : List DrawRecord} (h : l ≠ []) :
    ∃ d, get_latest_ad_date l = some d := by
  cases hl : get_latest_ad_date l with
  | none => exact absurd ((latest_eq_none_iff l).mp hl) h
  | some d => exact ⟨d, rfl⟩

theorem latest_le_of_mem : ∀ (l : List DrawRecord) (r : DrawRecord), r ∈ l →
    ∀ (m : Nat), get_latest_ad_date l = some m → r.ad_date ≤ m := by
  intro l
  induction l with
  | nil => intro r h; cases h
  | cons a rs ih =>
      intro r h m hm
      rw [latest_cons] at hm
      rcases List.mem_cons.mp h with rfl | hr
      · cases hX : get_latest_ad_date rs with
        | none =>
            rw [hX, optionMax_none_right] at hm
            injection hm with hm
            omega
        | some y =>
            rw [hX] at hm
            simp only [optionMax, Option.some.injEq] at hm
            exact hm ▸ Nat.le_max_left _ _
      · cases hX : get_latest_ad_date rs with
        | none =>
            rw [(latest_eq_none_iff rs).mp hX] at hr
            cases hr
        | some y =>
            rw [hX] at hm
            simp only [optionMax, Option.some.injEq] at hm
            exact hm ▸ le_trans (ih r hr y hX) (Nat.le_max_right _ _)

theorem latest_mem : ∀ (l : List DrawRecord) (m : Nat),
    get_latest_ad_date l = some m → ∃ r ∈ l, r.ad_date = m := by
  intro l
  induction l with
  | nil => intro m h; cases h
  | cons a rs ih =>
      intro m h
      rw [latest_cons] at h
      cases hX : get_latest_ad_date rs with
      | none =>
          rw [hX, optionMax_none_right] at h
          injection h with h
          exact ⟨a, List.mem_cons_self a rs, h⟩
      | some y =>
          rw [hX] at h
          simp only [optionMax, Option.some.injEq] at h
          rcases Nat.le_total a.ad_date y with hle | hle
          · obtain ⟨r, hr, hrd⟩ := ih y hX
            exact ⟨r, List.mem_cons_of_mem a hr,
              by rw [hrd, ← h, Nat.max_eq_right hle]⟩
          · exact ⟨a, List.mem_cons_self a rs, by rw [← h, Nat.max_eq_left hle]⟩

theorem optionMax_some_of_le {d : Nat} {l : List DrawRecord}
    (h : ∀ r ∈ l, r.ad_date ≤ d) :
    optionMax (some d) (get_latest_ad_date l) = some d := by
  induction l with
  | nil => rfl
  | cons a rs ih =>
      rw [latest_cons, ← optionMax_assoc]
      have ha : a.ad_date ≤ d := h a (List.mem_cons_self a rs)
      have hda : optionMax (some d) (some a.ad_date) = some d := by
        simp [optionMax, Nat.max_eq_left ha]
      rw [hda, ih (fun r hr => h r (List.mem_cons_of_mem a hr))]

/-! Helper lemmas: drop_duplicates on the draw column. -/

theorem dropDupAux_append (l : List DrawRecord) : ∀ (seen : List String) (m : List DrawRecord),
    dropDupAux seen (l ++ m)
      = dropDupAux seen l ++ dropDupAux (seenAfter seen l) m := by
  induction l with
  | nil => intro seen m; rfl
  | cons r rs ih =>
      intro seen m
      by_cases hr : r.draw ∈ seen
      · show dropDupAux seen (r :: (rs ++ m)) = _
        simp only [dropDupAux, if_pos hr, seenAfter]
        exact ih seen m
      · show dropDupAux seen (r :: (rs ++ m)) = _
        simp only [dropDupAux, if_neg hr, seenAfter, List.cons_append]
        exact congrArg (List.cons r) (ih (r.draw :: seen) m)

theorem mem_seenAfter (l : List DrawRecord) : ∀ (seen : List String) (d : String),
    d ∈ seenAfter seen l ↔ d ∈ seen ∨ d ∈ l.map DrawRecord.draw := by
  induction l with
  | nil => intro seen d; simp [seenAfter]
  | cons r rs ih =>
      intro seen d
      by_cases hr : r.draw ∈ seen
      · simp only [seenAfter, if_pos hr, ih, List.map_cons, List.mem_cons]
        constructor
        · rintro (h | h)
          · exact Or.inl h
          · exact Or.inr (Or.inr h)
        · rintro (h | rfl | h)
          · exact Or.inl h
          · exact Or.inl hr
          · exact Or.inr h
      · simp only [seenAfter, if_neg hr, ih, List.map_cons, List.mem_cons]
        tauto

theorem dropDupAux_eq_nil (m : List DrawRecord) : ∀ (seen : List String),
    (∀ r ∈ m, r.draw ∈ seen) → dropDupAux seen m = [] := by
  induction m with
  | nil => intro seen _; rfl
  | cons r rs ih =>
      intro seen h
      have hr : r.draw ∈ seen := h r (List.mem_cons_self r rs)
      simp only [dropDupAux, if_pos hr]
      exact ih seen (fun x hx => h x (List.mem_cons_of_mem r hx))

theorem dropDupAux_eq_self (m : List DrawRecord) : ∀ (seen : List String),
    (m.map DrawRecord.draw).Nodup → (∀ r ∈ m, r.draw ∉ seen) →
    dropDupAux seen m = m := by
  induction m with
  | nil => intro _ _ _; rfl
  | cons r rs ih =>
      intro seen hnd h
      have hnd' : (∀ x ∈ rs, ¬x.draw = r.draw) ∧ (rs.map DrawRecord.draw).Nodup := by
        simpa using hnd
      have hr : r.draw ∉ seen := h r (List.mem_cons_self r rs)
      simp only [dropDupAux, if_neg hr]
      congr 1
      apply ih (r.draw :: seen) hnd'.2
      intro x hx
      simp only [List.mem_cons]
      rintro (hxr | hxs)
      · exact hnd'.1 x hx hxr
      · exact h x (List.mem_cons_of_mem r hx) hxs

theorem mem_draws_dropDupAux (l : List DrawRecord) : ∀ (seen : List String) (d : String),
    d ∈ (dropDupAux seen l).map DrawRecord.draw
      ↔ d ∉ seen ∧ d ∈ l.map DrawRecord.draw := by
  induction l with
  | nil => intro seen d; simp [dropDupAux]
  | cons r rs ih =>
      intro seen d
      by_cases hr : r.draw ∈ seen
      · simp only [dropDupAux, if_pos hr, ih, List.map_cons, List.mem_cons]
        constructor
        · rintro ⟨h1, h2⟩; exact ⟨h1, Or.inr h2⟩
        · rintro ⟨h1, (rfl | h2)⟩
          · exact absurd hr h1
          · exact ⟨h1, h2⟩
      · simp only [dropDupAux, if_neg hr, List.map_cons, List.mem_cons, ih]
        by_cases hd : d = r.draw
        · subst hd; simp [hr]
        · tauto

theorem nodup_draws_dropDupAux (l : List DrawRecord) : ∀ (seen : List String),
    ((dropDupAux seen l).map DrawRecord.draw).Nodup := by
  induction l with
  | nil => intro seen; simp [dropDupAux]
  | cons r rs ih =>
      intro seen
      by_cases hr : r.draw ∈ seen
      · simp only [dropDupAux, if_pos hr]
        exact ih seen
      · simp only [dropDupAux, if_neg hr, List.map_cons]
        refine List.nodup_cons.mpr ⟨?_, ih _⟩
        rw [mem_draws_dropDupAux]
        rintro ⟨hn, _⟩
        exact hn (List.mem_cons_self _ _)

theorem mem_of_mem_dropDupAux (l : List DrawRecord) : ∀ (seen : List String) (r : DrawRecord),
    r ∈ dropDupAux seen l → r ∈ l := by
  induction l with
  | nil => intro _ _ h; cases h
  | cons a rs ih =>
      intro seen r h
      by_cases ha : a.draw ∈ seen
      · simp only [dropDupAux, if_pos ha] at h
        exact List.mem_cons_of_mem a (ih seen r h)
      · simp only [dropDupAux, if_neg ha, List.mem_cons] at h
        rcases h with rfl | h
        · exact List.mem_cons_self r rs
        · exact List.mem_cons_of_mem a (ih _ r h)

/-! Helper lemmas: sort_values on the ad_date column. -/

theorem sort_perm (l : List DrawRecord) : (sort_values_by_ad_date l).Perm l :=
  List.perm_insertionSort dateLe l

theorem sort_sorted (l : List DrawRecord) :
    List.Sorted dateLe (sort_values_by_ad_date l) :=
  List.sorted_insertionSort dateLe l

theorem sort_of_sorted {l : List DrawRecord} (h : List.Sorted dateLe l) :
    sort_values_by_ad_date l = l :=
  h.insertionSort_eq

theorem latest_sort (l : List DrawRecord) :
    get_latest_ad_date (sort_values_by_ad_date l) = get_latest_ad_date l :=
  latest_perm (sort_perm l)

theorem draws_nodup_sort {l : List DrawRecord}
    (h : (l.map DrawRecord.draw).Nodup) :
    ((sort_values_by_ad_date l).map DrawRecord.draw).Nodup :=
  (((sort_perm l).symm).map DrawRecord.draw).nodup h

theorem mem_draws_sort {l : List DrawRecord} {d : String} :
    d ∈ (sort_values_by_ad_date l).map DrawRecord.draw
      ↔ d ∈ l.map DrawRecord.draw :=
  ((sort_perm l).map DrawRecord.draw).mem_iff

/-! Helper lemmas: the two branches of the merge step. -/

theorem merge_eq_of_no_new {existing incoming : List DrawRecord}
    (h : incoming.filter (isNewer (get_latest_ad_date existing)) = []) :
    merge existing incoming = existing := by
  simp [merge, collect_eq_filter, h]

theorem merge_eq_of_new {existing incoming : List DrawRecord}
    (h : incoming.filter (isNewer (get_latest_ad_date existing)) ≠ []) :
    merge existing incoming
      = sort_values_by_ad_date (drop_duplicates_by_draw
          (existing ++ incoming.filter (isNewer (get_latest_ad_date existing)))) := by
  have he : (incoming.filter (isNewer (get_latest_ad_date existing))).isEmpty = false :=
    List.isEmpty_eq_false.mpr h
  simp [merge, collect_eq_filter, he]

theorem dedup_append_absorb {L M : List DrawRecord}
    (hL : (L.map DrawRecord.draw).Nodup)
    (hM : ∀ r ∈ M, r.draw ∈ L.map DrawRecord.draw) :
    drop_duplicates_by_draw (L ++ M) = L := by
  unfold drop_duplicates_by_draw
  rw [dropDupAux_append, dropDupAux_eq_self L [] hL (by simp),
    dropDupAux_eq_nil M _
      (fun r hr => (mem_seenAfter L [] r.draw).mpr (Or.inr (hM r hr)))]
  simp

theorem isNewer_of_optionMax {a b : Option Nat} {r : DrawRecord}
    (h : isNewer (optionMax a b) r = true) : isNewer a r = true := by
  cases a with
  | none => rfl
  | some d =>
      cases b with
      | none => simpa [optionMax] using h
      | some y =>
          simp only [optionMax, isNewer, decide_eq_true_eq] at h ⊢
          exact lt_of_le_of_lt (Nat.le_max_left d y) h

/-- C1: for every existing table satisfying the documented table
invariants (pairwise-distinct periods, sorted ascending by draw_date) and
every incoming batch, the code combines the tables exactly as the
specification words the merge: date filter on the incoming batch first,
then concatenation of the survivors after the existing rows, then
de-duplication by period keeping the first occurrence, then the ascending
sort by draw_date — in particular the date filter acts before, and
independently of, the period de-duplication.  When nothing survives the
date filter the code leaves the table as loaded, which coincides with the
pipeline result because of the two invariants. -/
theorem C1_merge_filters_then_dedups_then_sorts (existing incoming : List DrawRecord)
    (hnd : (existing.map DrawRecord.draw).Nodup)
    (hsorted : List.Sorted dateLe existing) :
    merge existing incoming = merge_spec existing incoming := by
  by_cases hSe : incoming.filter (isNewer (get_latest_ad_date existing)) = []
  · rw [merge_eq_of_no_new hSe]
    unfold merge_spec
    rw [hSe, List.append_nil]
    rw [show drop_duplicates_by_draw existing = existing from
      dropDupAux_eq_self existing [] hnd (by simp)]
    exact (sort_of_sorted hsorted).symm
  · exact merge_eq_of_new hSe

/-- Witness for C1 at a concrete table and incoming batch. -/
theorem C1_witness :
    (([mkRec "a" 1].map DrawRecord.draw).Nodup) ∧
    List.Sorted dateLe [mkRec "a" 1] ∧
    merge [mkRec "a" 1] [mkRec "b" 2] = merge_spec [mkRec "a" 1] [mkRec "b" 2] :=
  ⟨by decide, by simp, C1_merge_filters_then_dedups_then_sorts _ _ (by decide) (by simp)⟩

/-- C8: when every processed record fails the date test and the existing
table is non-empty, the run signals the read-only already-up-to-date
outcome and the persisted table is exactly the loaded existing table — no
write of a combined table happens. -/
theorem C8_up_to_date_leaves_table_unchanged (existing processed : List DrawRecord)
    (hnone : processed.filter (isNewer (get_latest_ad_date existing)) = [])
    (hne : existing ≠ []) :
    crawl_and_save_daily_cash existing processed
      = (CrawlOutcome.upToDate, existing) := by
  have he : existing.isEmpty = false := List.isEmpty_eq_false.mpr hne
  simp [crawl_and_save_daily_cash, collect_eq_filter, hnone, he]

/-- Witness for C8 at a concrete table and batch with no new records. -/
theorem C8_witness :
    [mkRec "b" 1].filter (isNewer (get_latest_ad_date [mkRec "a" 1])) = [] ∧
    ([mkRec "a" 1] : List DrawRecord) ≠ [] ∧
    crawl_and_save_daily_cash [mkRec "a" 1] [mkRec "b" 1]
      = (CrawlOutcome.upToDate, [mkRec "a" 1]) :=
  ⟨by decide, by decide,
    C8_up_to_date_leaves_table_unchanged _ _ (by decide) (by decide)⟩

/-- C3 counterexample: the claimed equation
latest(merge(A,B)) = max(latest(A), latest(B)) fails when a surviving
incoming record shares its period with an existing record: the
de-duplication keeps the older existing row and drops the newer incoming
one, so the merged table never reaches the incoming maximum date. -/
theorem C3_counterexample :
    get_latest_ad_date (merge [mkRec "p" 10] [mkRec "p" 11])
      ≠ optionMax (get_latest_ad_date [mkRec "p" 10])
          (get_latest_ad_date [mkRec "p" 11]) := by decide

/-- C3 amended: the equation
latest(merge(A,B)) = max(latest(A), latest(B)) (with none as the sentinel
of the empty table) holds provided the incoming records surviving the date
filter carry pairwise-distinct periods that do not occur in the existing
table, so that the de-duplication drops none of them. -/
theorem C3_amended (A B : List DrawRecord)
    (hnd : ((B.filter (isNewer (get_latest_ad_date A))).map DrawRecord.draw).Nodup)
    (hdisj : ∀ r ∈ B.filter (isNewer (get_latest_ad_date A)),
        r.draw ∉ A.map DrawRecord.draw) :
    get_latest_ad_date (merge A B)
      = optionMax (get_latest_ad_date A) (get_latest_ad_date B) := by
  by_cases hSe : B.filter (isNewer (get_latest_ad_date A)) = []
  · rw [merge_eq_of_no_new hSe]
    cases hA : get_latest_ad_date A with
    | none =>
        have hfB : B.filter (isNewer (get_latest_ad_date A)) = B :=
          List.filter_eq_self.mpr (fun a _ => by rw [hA]; rfl)
        have hBnil : B = [] := by rw [← hfB]; exact hSe
        rw [hBnil]
        rfl
    | some d =>
        have hble : ∀ b ∈ B, b.ad_date ≤ d := by
          intro b hb
          by_contra hlt
          push_neg at hlt
          have hbf : b ∈ B.filter (isNewer (get_latest_ad_date A)) := by
            rw [List.mem_filter]
            refine ⟨hb, ?_⟩
            rw [hA]
            simpa [isNewer] using hlt
          rw [hSe] at hbf
          cases hbf
        exact (optionMax_some_of_le hble).symm
  · have hsplit : drop_duplicates_by_draw
        (A ++ B.filter (isNewer (get_latest_ad_date A)))
          = dropDupAux [] A ++ B.filter (isNewer (get_latest_ad_date A)) := by
      unfold drop_duplicates_by_draw
      rw [dropDupAux_append]
      congr 1
      apply dropDupAux_eq_self _ _ hnd
      intro r hr
      rw [mem_seenAfter]
      rintro (h | h)
      · cases h
      · exact hdisj r hr h
    rw [merge_eq_of_new hSe, latest_sort, hsplit, latest_append]
    by_cases hAe : A = []
    · subst hAe
      have hfB : B.filter (isNewer (get_latest_ad_date ([] : List DrawRecord))) = B :=
        List.filter_eq_self.mpr (fun a _ => rfl)
      rw [hfB]
      rfl
    · obtain ⟨d, hA⟩ := latest_isSome_of_ne_nil hAe
      obtain ⟨mS, hmS⟩ := latest_isSome_of_ne_nil hSe
      obtain ⟨s, hsmem, hsdate⟩ :=
        latest_mem (B.filter (isNewer (get_latest_ad_date A))) mS hmS
      have hsd : d < s.ad_date := by
        have hf := (List.mem_filter.mp hsmem).2
        rw [hA] at hf
        simpa [isNewer] using hf
      have hds : d < mS := by omega
      have hdA : ∀ r ∈ dropDupAux [] A, r.ad_date ≤ d := fun r hr =>
        latest_le_of_mem A r (mem_of_mem_dropDupAux A [] r hr) d hA
      have hLHS : optionMax (get_latest_ad_date (dropDupAux [] A))
          (get_latest_ad_date (B.filter (isNewer (get_latest_ad_date A))))
            = some mS := by
        rw [hmS, optionMax_comm]
        exact optionMax_some_of_le (fun r hr => le_trans (hdA r hr) (le_of_lt hds))
      have hBne : B ≠ [] := by
        intro hB
        rw [hB] at hSe
        exact hSe rfl
      obtain ⟨mB, hmB⟩ := latest_isSome_of_ne_nil hBne
      have hsB : s ∈ B := (List.mem_filter.mp hsmem).1
      have hsmB : s.ad_date ≤ mB := latest_le_of_mem B s hsB mB hmB
      have hSB : mS ≤ mB := by omega
      obtain ⟨b, hbmem, hbdate⟩ := latest_mem B mB hmB
      have hbS : b ∈ B.filter (isNewer (get_latest_ad_date A)) := by
        rw [List.mem_filter]
        refine ⟨hbmem, ?_⟩
        rw [hA]
        simp only [isNewer, decide_eq_true_eq]
        omega
      have hbmS : b.ad_date ≤ mS :=
        latest_le_of_mem (B.filter (isNewer (get_latest_ad_date A))) b hbS mS hmS
      have hmBmS : mB = mS := by omega
      rw [hLHS, hA, hmB, hmBmS]
      simp [optionMax, Nat.max_eq_right (le_of_lt hds)]

/-- Witness for the amended C3 at concrete tables with disjoint periods. -/
theorem C3_witness :
    (([mkRec "b" 2].filter
        (isNewer (get_latest_ad_date [mkRec "a" 1]))).map DrawRecord.draw).Nodup ∧
    (∀ r ∈ [mkRec "b" 2].filter (isNewer (get_latest_ad_date [mkRec "a" 1])),
        r.draw ∉ [mkRec "a" 1].map DrawRecord.draw) ∧
    get_latest_ad_date (merge [mkRec "a" 1] [mkRec "b" 2])
      = optionMax (get_latest_ad_date [mkRec "a" 1])
          (get_latest_ad_date [mkRec "b" 2]) :=
  ⟨by decide, by decide, C3_amended _ _ (by decide) (by decide)⟩

/-- Helper: a second merge is absorbed by a sorted, duplicate-free table
whose period set already covers every incoming record that passes its date
filter. -/
theorem merge_absorbed {U I : List DrawRecord}
    (hnd : (U.map DrawRecord.draw).Nodup)
    (hsorted : List.Sorted dateLe U)
    (hmem : ∀ r ∈ I.filter (isNewer (get_latest_ad_date U)),
        r.draw ∈ U.map DrawRecord.draw) :
    merge U I = U := by
  by_cases hS2 : I.filter (isNewer (get_latest_ad_date U)) = []
  · exact merge_eq_of_no_new hS2
  · rw [merge_eq_of_new hS2, dedup_append_absorb hnd hmem, sort_of_sorted hsorted]

/-- C4 counterexample: merging the same batch twice is not idempotent when
the existing table carries a duplicated period.  The first merge collapses
the duplicate and thereby lowers the latest date of the table, so the
second merge admits batch records that the first one filtered out. -/
theorem C4_counterexample :
    merge (merge [mkRec "p" 3, mkRec "p" 9] [mkRec "p" 10, mkRec "s" 5])
        [mkRec "p" 10, mkRec "s" 5]
      ≠ merge [mkRec "p" 3, mkRec "p" 9] [mkRec "p" 10, mkRec "s" 5] := by decide

/-- C4 amended: merge is idempotent for every incoming batch provided the
existing table carries pairwise-distinct periods — the invariant the
specification asserts for every persisted table. -/
theorem C4_amended (T I : List DrawRecord)
    (hnd : (T.map DrawRecord.draw).Nodup) :
    merge (merge T I) I = merge T I := by
  by_cases hSe : I.filter (isNewer (get_latest_ad_date T)) = []
  · rw [merge_eq_of_no_new hSe]
    exact merge_eq_of_no_new hSe
  · have hsplit : drop_duplicates_by_draw
        (T ++ I.filter (isNewer (get_latest_ad_date T)))
          = T ++ dropDupAux (seenAfter [] T)
              (I.filter (isNewer (get_latest_ad_date T))) := by
      unfold drop_duplicates_by_draw
      rw [dropDupAux_append]
      congr 1
      exact dropDupAux_eq_self T [] hnd (by simp)
    rw [merge_eq_of_new hSe]
    apply merge_absorbed
    · exact draws_nodup_sort (nodup_draws_dropDupAux _ [])
    · exact sort_sorted _
    · intro r hr
      rw [List.mem_filter] at hr
      have hrS : r ∈ I.filter (isNewer (get_latest_ad_date T)) := by
        rw [List.mem_filter]
        refine ⟨hr.1, ?_⟩
        have h2 := hr.2
        rw [latest_sort, hsplit, latest_append] at h2
        exact isNewer_of_optionMax h2
      rw [mem_draws_sort, hsplit, List.map_append, List.mem_append]
      by_cases hT : r.draw ∈ T.map DrawRecord.draw
      · exact Or.inl hT
      · refine Or.inr ?_
        rw [mem_draws_dropDupAux]
        refine ⟨?_, List.mem_map_of_mem DrawRecord.draw hrS⟩
        intro hmem
        rcases (mem_seenAfter T [] r.draw).mp hmem with h | h
        · cases h
        · exact hT h

/-- Witness for the amended C4 at a concrete duplicate-free table. -/
theorem C4_witness :
    (([mkRec "a" 1, mkRec "b" 2].map DrawRecord.draw).Nodup) ∧
    merge (merge [mkRec "a" 1, mkRec "b" 2] [mkRec "c" 3, mkRec "d" 1])
        [mkRec "c" 3, mkRec "d" 1]
      = merge [mkRec "a" 1, mkRec "b" 2] [mkRec "c" 3, mkRec "d" 1] :=
  ⟨by decide, C4_amended _ _ (by decide)⟩

/-- C2 counterexample: the normalizer performs no validation of the drawn
numbers — it only takes the first five entries and sorts them — so a raw
item whose number list is too short or repeats a value yields a retained
record violating the claimed invariant. -/
theorem C2_counterexample :
    ¬ (∀ r ∈ process_daily_cash_data
        [{ lotteryDate := some ⟨2024, 1, 2⟩, period := some "113000001",
           drawNumberAppear := some [7, 7, 7] }],
        validNumbers r.numbers) := by decide

/-- C2 amended: whenever the first five entries of a raw item's number
list form five distinct values in the range 1 to 39 — the shape the remote
API is expected to deliver — the normalized record's numbers field
satisfies the invariant: the normalizer preserves validity but does not
enforce it. -/
theorem C2_amended (raw : List RawItem)
    (h : ∀ item ∈ raw, ∀ ns, item.drawNumberAppear = some ns →
        validNumbers (ns.take 5)) :
    ∀ r ∈ process_daily_cash_data raw, validNumbers r.numbers := by
  intro r hr
  rw [process_daily_cash_data, List.mem_filterMap] at hr
  obtain ⟨item, hitem, hproc⟩ := hr
  obtain ⟨ld, pd, dn⟩ := item
  cases ld with
  | none => exact absurd hproc (by simp [processItem])
  | some dte =>
      cases pd with
      | none => exact absurd hproc (by simp [processItem])
      | some p =>
          cases dn with
          | none => exact absurd hproc (by simp [processItem])
          | some ns =>
              have hv : validNumbers (ns.take 5) := h _ hitem ns rfl
              have hproc2 : some
                  { draw := p
                    date := toString (dte.year - 1911) ++ "/" ++ pad2 dte.month
                      ++ "/" ++ pad2 dte.day
                    ad_date := dte.toOrdinal
                    numbers := List.insertionSort (fun a b : Nat => a ≤ b) (ns.take 5)
                    price := 8000000
                    lottery_type := "daily_cash" } = some r := hproc
              injection hproc2 with hrec
              subst hrec
              have hperm :
                  (List.insertionSort (fun a b : Nat => a ≤ b) (ns.take 5)).Perm
                    (ns.take 5) := List.perm_insertionSort _ _
              refine ⟨?_, ?_, ?_⟩
              · rw [show (List.insertionSort (fun a b : Nat => a ≤ b)
                    (ns.take 5)).length = (ns.take 5).length from hperm.length_eq]
                exact hv.1
              · intro n hn
                exact hv.2.1 n (hperm.mem_iff.mp hn)
              · exact hperm.symm.nodup hv.2.2

/-- Witness for the amended C2: the record normalized from a concrete
well-formed raw item satisfies the numbers invariant. -/
theorem C2_witness :
    validNumbers (DrawRecord.numbers
      { draw := "113000001", date := "113/01/02", ad_date := 20240102,
        numbers := [5, 12, 18, 31, 39], price := 8000000,
        lottery_type := "daily_cash" }) :=
  C2_amended
    [{ lotteryDate := some ⟨2024, 1, 2⟩, period := some "113000001",
       drawNumberAppear := some [31, 12, 18, 5, 39] }]
    (by
      intro item hitem ns hns
      rw [List.mem_singleton] at hitem
      subst hitem
      have hns2 : some [31, 12, 18, 5, 39] = some ns := hns
      injection hns2 with hns3
      rw [← hns3]
      decide)
    _ (by decide)

/-- C9 counterexample: when the response body parses to a JSON document
whose top level is not an object, the attribute access data.get raises an
AttributeError that no except clause catches, so the fetcher does raise to
its caller. -/
theorem C9_counterexample :
    ¬ ∃ v, crawl_daily_cash (HttpResult.body JsonDoc.nonObject)
        = PyResult.ok v := by
  rintro ⟨v, hv⟩
  simp [crawl_daily_cash] at hv

/-- C9 amended: for every response whose parsed body (if parsing succeeds)
is a JSON object, the fetcher returns without raising; transport failures,
parse failures and non-success status codes all yield the empty result,
and a success status yields the raw content payload. -/
theorem C9_amended (resp : HttpResult)
    (h : resp ≠ HttpResult.body JsonDoc.nonObject) :
    (∃ v, crawl_daily_cash resp = PyResult.ok v) ∧
    crawl_daily_cash HttpResult.transportError = PyResult.ok emptyContent ∧
    crawl_daily_cash (HttpResult.body JsonDoc.malformed)
      = PyResult.ok emptyContent ∧
    (∀ rc c, rc ≠ some 0 →
      crawl_daily_cash (HttpResult.body (JsonDoc.obj rc c))
        = PyResult.ok emptyContent) ∧
    (∀ c, crawl_daily_cash (HttpResult.body (JsonDoc.obj (some 0) c))
        = PyResult.ok (c.getD emptyContent)) := by
  refine ⟨?_, rfl, rfl, ?_, ?_⟩
  · cases resp with
    | transportError => exact ⟨emptyContent, rfl⟩
    | body doc =>
        cases doc with
        | malformed => exact ⟨emptyContent, rfl⟩
        | nonObject => exact absurd rfl h
        | obj rc c =>
            by_cases hrc : rc = some 0
            · subst hrc
              exact ⟨c.getD emptyContent, by simp [crawl_daily_cash]⟩
            · exact ⟨emptyContent, by simp [crawl_daily_cash, hrc]⟩
  · intro rc c hrc
    simp [crawl_daily_cash, hrc]
  · intro c
    simp [crawl_daily_cash]

/-- Witness for the amended C9 at the concrete transport-failure input. -/
theorem C9_witness :
    HttpResult.transportError ≠ HttpResult.body JsonDoc.nonObject ∧
    (∃ v, crawl_daily_cash HttpResult.transportError = PyResult.ok v) :=
  ⟨by decide, (C9_amended HttpResult.transportError (by decide)).1⟩

/-- C7: every statistics query applied to the empty table, for any window
size, returns its well-defined neutral form: the frequency and last-digit
dicts are empty, sum analysis returns None for mean, median, standard
deviation, minimum and maximum together with an empty list of sums, the
ratio and consecutive queries return their empty dicts with zero counts,
and the latest-n selector returns the empty table. -/
theorem C7_empty_table_neutral (num_draws : Option Nat) (n : Nat) :
    calculate_frequency [] num_draws = [] ∧
    calculate_sum_analysis [] num_draws =
      { sums := [], mean_sum := none, median_sum := none, std_dev_sum := none,
        min_sum := none, max_sum := none } ∧
    calculate_odd_even_big_small_ratios [] num_draws =
      [("odd_even_ratios", StatVal.strs []),
       ("big_small_ratios", StatVal.strs []),
       ("odd_even_counts", StatVal.dist []),
       ("big_small_counts", StatVal.dist [])] ∧
    analyze_consecutive_numbers [] num_draws =
      [("consecutive_patterns", ConsecVal.dist []),
       ("total_draws_with_consecutive", ConsecVal.nat 0)] ∧
    analyze_last_digits [] num_draws = [] ∧
    get_latest_n_draws [] n = [] := by
  cases num_draws <;> exact ⟨rfl, rfl, rfl, rfl, rfl, rfl⟩

/-- C10: the key set of the odd/even and big/small query depends on
whether the selected window is empty.  On a non-empty window the dict
carries the odd_even_distribution and big_small_distribution keys; on an
empty window it instead carries odd_even_counts and big_small_counts, and
a lookup of either distribution key fails with none. -/
theorem C10_key_sets_depend_on_emptiness (df : List DrawRecord)
    (num_draws : Option Nat) :
    (windowed df num_draws = [] →
      (calculate_odd_even_big_small_ratios df num_draws).map Prod.fst =
        ["odd_even_ratios", "big_small_ratios",
         "odd_even_counts", "big_small_counts"] ∧
      (calculate_odd_even_big_small_ratios df num_draws).lookup
        "odd_even_distribution" = none ∧
      (calculate_odd_even_big_small_ratios df num_draws).lookup
        "big_small_distribution" = none) ∧
    (windowed df num_draws ≠ [] →
      (calculate_odd_even_big_small_ratios df num_draws).map Prod.fst =
        ["odd_even_ratios", "big_small_ratios",
         "odd_even_distribution", "big_small_distribution"]) := by
  constructor
  · intro h
    have he : (windowed df num_draws).isEmpty = true := List.isEmpty_iff.mpr h
    have hcalc : calculate_odd_even_big_small_ratios df num_draws
        = [("odd_even_ratios", StatVal.strs []),
           ("big_small_ratios", StatVal.strs []),
           ("odd_even_counts", StatVal.dist []),
           ("big_small_counts", StatVal.dist [])] := by
      simp [calculate_odd_even_big_small_ratios, he]
    rw [hcalc]
    exact ⟨rfl, by decide, by decide⟩
  · intro h
    have he : (windowed df num_draws).isEmpty = false := List.isEmpty_eq_false.mpr h
    simp [calculate_odd_even_big_small_ratios, he]

/-- Witness for C10 at a concrete empty and a concrete non-empty table. -/
theorem C10_witness :
    (windowed [] none = [] ∧
      (calculate_odd_even_big_small_ratios [] none).map Prod.fst =
        ["odd_even_ratios", "big_small_ratios",
         "odd_even_counts", "big_small_counts"]) ∧
    (windowed [mkRec "a" 1] none ≠ [] ∧
      (calculate_odd_even_big_small_ratios [mkRec "a" 1] none).map Prod.fst =
        ["odd_even_ratios", "big_small_ratios",
         "odd_even_distribution", "big_small_distribution"]) :=
  ⟨⟨rfl, (((C10_key_sets_depend_on_emptiness [] none).1) rfl).1⟩,
   ⟨by decide, (C10_key_sets_depend_on_emptiness [mkRec "a" 1] none).2 (by decide)⟩⟩

/-- Helper: lookup in an association list built by mapping a function over
a contiguous range of keys. -/
theorem lookup_range_map (f : Nat → Nat) :
    ∀ (n a k : Nat), a ≤ k → k < a + n →
    ((List.range' a n).map (fun j => (j, f j))).lookup k = some (f k) := by
  intro n
  induction n with
  | zero => intro a k h1 h2; omega
  | succ m ih =>
      intro a k h1 h2
      rw [List.range'_succ, List.map_cons]
      by_cases hk : k = a
      · subst hk
        simp [List.lookup]
      · have hba : (k == a) = false := beq_eq_false_iff_ne.mpr hk
        simp only [List.lookup, hba]
        exact ih (a + 1) k (by omega) (by omega)

/-- C5 counterexample: on the empty table the frequency query returns the
empty dict, so the key 1 (and every other domain key) is absent — the
fixed-domain guarantee does not extend to an empty window. -/
theorem C5_counterexample :
    ¬ (∀ k, 1 ≤ k → k ≤ 39 →
        ∃ c, (calculate_frequency [] none).lookup k = some c) := by
  intro hclaim
  obtain ⟨c, hc⟩ := hclaim 1 le_rfl (by omega)
  have hnone : (calculate_frequency [] none).lookup 1 = none := rfl
  rw [hnone] at hc
  cases hc

/-- C5 amended: on every non-empty window the frequency dict contains
every key 1 to 39 and the last-digit dict every key 0 to 9, each mapped to
the exact number of occurrences across the window — in particular to 0
when the key never occurs; on an empty window both queries return the
empty dict instead. -/
theorem C5_amended (df : List DrawRecord) (num_draws : Option Nat)
    (h : windowed df num_draws ≠ []) :
    (∀ k, 1 ≤ k → k ≤ 39 →
      (calculate_frequency df num_draws).lookup k
        = some (((windowed df num_draws).flatMap (fun r => r.numbers)).count k)) ∧
    (∀ d0, d0 ≤ 9 →
      (analyze_last_digits df num_draws).lookup d0
        = some (((windowed df num_draws).flatMap
            (fun r => r.numbers.map (fun n => n % 10))).count d0)) := by
  have he : (windowed df num_draws).isEmpty = false := List.isEmpty_eq_false.mpr h
  constructor
  · intro k h1 h2
    have hc : calculate_frequency df num_draws
        = (List.range' 1 39).map (fun j =>
            (j, ((windowed df num_draws).flatMap (fun r => r.numbers)).count j)) := by
      simp [calculate_frequency, he]
    rw [hc]
    exact lookup_range_map _ 39 1 k h1 (by omega)
  · intro d0 h0
    have hc : analyze_last_digits df num_draws
        = (List.range' 0 10).map (fun j =>
            (j, ((windowed df num_draws).flatMap
              (fun r => r.numbers.map (fun n => n % 10))).count j)) := by
      simp [analyze_last_digits, he]
    rw [hc]
    exact lookup_range_map _ 10 0 d0 (by omega) (by omega)

/-- Witness for the amended C5 at a concrete one-row table: the key 7
never occurs and is reported with count 0, and last digit 2 occurs once. -/
theorem C5_witness :
    windowed [mkRec "a" 1] none ≠ [] ∧
    (calculate_frequency [mkRec "a" 1] none).lookup 7 = some 0 ∧
    (analyze_last_digits [mkRec "a" 1] none).lookup 2 = some 1 := by
  refine ⟨by decide, ?_, ?_⟩
  · have h := (C5_amended [mkRec "a" 1] none (by decide)).1 7 (by omega) (by omega)
    rw [h]
    decide
  · have h := (C5_amended [mkRec "a" 1] none (by decide)).2 2 (by omega)
    rw [h]
    decide

/-- Helper: the row loop of analyze_consecutive_numbers splits into the
pattern-dict fold over all consecutive pairs of the window and the count
of rows owning at least one consecutive pair — each row bumps the tally at
most once however many pairs it contains. -/
theorem consec_foldl (l : List DrawRecord) : ∀ (d : List (String × Nat)) (n : Nat),
    l.foldl consecStep (d, n)
      = ((l.flatMap (fun r => consecPairs r.numbers)).foldl bumpCount d,
         n + l.countP (fun r => !(consecPairs r.numbers).isEmpty)) := by
  induction l with
  | nil => intro d n; simp
  | cons r rs ih =>
      intro d n
      rw [List.foldl_cons]
      have hstep : consecStep (d, n) r
          = ((consecPairs r.numbers).foldl bumpCount d,
             if (consecPairs r.numbers).isEmpty then n else n + 1) := rfl
      rw [hstep, ih, List.flatMap_cons, List.foldl_append, List.countP_cons]
      congr 1
      by_cases hp : (consecPairs r.numbers).isEmpty = true
      · simp [hp]
      · simp [hp]
        omega

/-- Helper: effect of one dict bump on lookups. -/
theorem lookup_bumpCount (d : List (String × Nat)) (k j : String) :
    (bumpCount d k).lookup j
      = if j = k then some ((d.lookup j).getD 0 + 1) else d.lookup j := by
  induction d with
  | nil =>
      by_cases hj : j = k
      · subst hj
        simp [bumpCount, List.lookup]
      · simp [bumpCount, List.lookup, hj, beq_eq_false_iff_ne.mpr hj]
  | cons q rest ih =>
      obtain ⟨k0, c⟩ := q
      by_cases hk0 : k0 = k
      · subst hk0
        simp only [bumpCount, if_pos rfl]
        by_cases hj : j = k0
        · subst hj
          simp [List.lookup]
        · simp [List.lookup, beq_eq_false_iff_ne.mpr hj, hj]
      · simp only [bumpCount, if_neg hk0]
        by_cases hj : j = k0
        · subst hj
          have hjk : ¬j = k := fun hh => hk0 hh
          simp [List.lookup, hjk]
        · simp only [List.lookup, beq_eq_false_iff_ne.mpr hj, ih]

/-- Helper: a dict bump either leaves the key list unchanged or appends
the new key at the end. -/
theorem keys_bumpCount (d : List (String × Nat)) (k : String) :
    (bumpCount d k).map Prod.fst
      = if k ∈ d.map Prod.fst then d.map Prod.fst
        else d.map Prod.fst ++ [k] := by
  induction d with
  | nil => simp [bumpCount]
  | cons q rest ih =>
      obtain ⟨k0, c⟩ := q
      by_cases hk0 : k0 = k
      · subst hk0
        simp [bumpCount]
      · have hkk0 : ¬k = k0 := fun hh => hk0 hh.symm
        by_cases hk : k ∈ rest.map Prod.fst
        · simp [bumpCount, hk0, ih, hk, List.mem_cons, hkk0]
        · simp [bumpCount, hk0, ih, hk, List.mem_cons, hkk0]

/-- Helper: a dict bump keeps the keys duplicate-free. -/
theorem keys_nodup_bumpCount {d : List (String × Nat)} (k : String)
    (h : (d.map Prod.fst).Nodup) :
    ((bumpCount d k).map Prod.fst).Nodup := by
  rw [keys_bumpCount]
  by_cases hk : k ∈ d.map Prod.fst
  · simp [hk, h]
  · simp only [hk, if_neg, ite_false]
    simp [List.nodup_append, h, hk]

/-- Helper: folding dict bumps keeps the keys duplicate-free. -/
theorem keys_nodup_foldl_bump (l : List String) : ∀ (d : List (String × Nat)),
    (d.map Prod.fst).Nodup → ((l.foldl bumpCount d).map Prod.fst).Nodup := by
  induction l with
  | nil => intro d h; exact h
  | cons k rest ih => intro d h; exact ih _ (keys_nodup_bumpCount k h)

/-- Helper: the dict built by bumping once per list element maps every
key to its occurrence count in the list. -/
theorem lookup_foldl_bump (l : List String) : ∀ (d : List (String × Nat)) (j : String),
    (l.foldl bumpCount d).lookup j
      = if l.count j = 0 ∧ d.lookup j = none then none
        else some ((d.lookup j).getD 0 + l.count j) := by
  induction l with
  | nil =>
      intro d j
      cases hd : d.lookup j with
      | none => simp [hd]
      | some v => simp [hd]
  | cons k rest ih =>
      intro d j
      rw [List.foldl_cons, ih, lookup_bumpCount]
      by_cases hj : j = k
      · subst hj
        have hcnt : (j :: rest).count j = rest.count j + 1 := by
          simp [List.count_cons]
        have hbump : (if j = j then some ((d.lookup j).getD 0 + 1) else d.lookup j)
            = some ((d.lookup j).getD 0 + 1) := if_pos rfl
        rw [hcnt, hbump]
        have hne : ¬(rest.count j = 0 ∧
            (some ((d.lookup j).getD 0 + 1) : Option Nat) = none) := by
          rintro ⟨_, hc⟩
          cases hc
        rw [if_neg hne,
          if_neg (by omega : ¬(rest.count j + 1 = 0 ∧ d.lookup j = none))]
        congr 1
        simp only [Option.getD_some]
        omega
      · have hcnt : (k :: rest).count j = rest.count j := by
          simp [List.count_cons, beq_eq_false_iff_ne.mpr (fun hh => hj hh.symm)]
        rw [hcnt, if_neg hj]

/-- Helper: in a dict with duplicate-free keys, membership of a pair is
the same as a successful lookup. -/
theorem mem_assoc_of_nodup_keys : ∀ (d : List (String × Nat)) (p : String) (c : Nat),
    (d.map Prod.fst).Nodup → ((p, c) ∈ d ↔ d.lookup p = some c) := by
  intro d
  induction d with
  | nil => intro p c _; simp [List.lookup]
  | cons q rest ih =>
      intro p c hnd
      obtain ⟨k0, c0⟩ := q
      rw [List.map_cons] at hnd
      have h2 := List.nodup_cons.mp hnd
      by_cases hp : p = k0
      · subst hp
        simp only [List.mem_cons, List.lookup, beq_self_eq_true]
        constructor
        · rintro (heq | hmem)
          · rw [Prod.mk.injEq] at heq
            rw [heq.2]
          · exact absurd (List.mem_map_of_mem Prod.fst hmem) h2.1
        · intro hl
          injection hl with hl2
          left
          rw [hl2]
      · simp only [List.mem_cons, List.lookup, beq_eq_false_iff_ne.mpr hp,
          ih p c h2.2]
        constructor
        · rintro (heq | hmem)
          · rw [Prod.mk.injEq] at heq
            exact absurd heq.1 hp
          · exact hmem
        · exact Or.inr

/-- C6 counterexample: on the empty window the consecutive-number query
returns a dict without the percentage_with_consecutive key, so the claimed
result shape does not hold for every window. -/
theorem C6_counterexample :
    ¬ ("percentage_with_consecutive" ∈
        (analyze_consecutive_numbers [] none).map Prod.fst) := by decide

/-- C6 amended: on every non-empty window the consecutive-number analysis
returns the pattern distribution sorted by pattern — each adjacent pair
differing by exactly 1 contributing to its own pattern count — together
with the number of draws containing at least one consecutive pair (each
draw counted at most once however many pairs it contains) and that number
as a percentage of the draws in the window; the empty window returns only
the empty distribution and the zero tally. -/
theorem C6_amended (df : List DrawRecord) (num_draws : Option Nat)
    (h : windowed df num_draws ≠ []) :
    ∃ dist : List (String × Nat),
      analyze_consecutive_numbers df num_draws =
        [("consecutive_patterns", ConsecVal.dist dist),
         ("total_draws_with_consecutive", ConsecVal.nat
            ((windowed df num_draws).countP
              (fun r => !(consecPairs r.numbers).isEmpty))),
         ("percentage_with_consecutive", ConsecVal.rat
            ((((windowed df num_draws).countP
                (fun r => !(consecPairs r.numbers).isEmpty) : Nat) : ℚ)
              / ((windowed df num_draws).length : ℚ) * 100))] ∧
      List.Sorted keyLe dist ∧
      (∀ p c, (p, c) ∈ dist ↔
        (0 < c ∧ ((windowed df num_draws).flatMap
            (fun r => consecPairs r.numbers)).count p = c)) := by
  have he : (windowed df num_draws).isEmpty = false := List.isEmpty_eq_false.mpr h
  have hlen : 0 < (windowed df num_draws).length := List.length_pos.mpr h
  refine ⟨dict_sorted (((windowed df num_draws).flatMap
      (fun r => consecPairs r.numbers)).foldl bumpCount []), ?_, ?_, ?_⟩
  · have hfold := consec_foldl (windowed df num_draws) [] 0
    simp [analyze_consecutive_numbers, he, hfold, hlen, dict_sorted]
  · exact List.sorted_insertionSort keyLe _
  · intro p c
    have hperm := List.perm_insertionSort keyLe
      (((windowed df num_draws).flatMap
        (fun r => consecPairs r.numbers)).foldl bumpCount [])
    rw [show dict_sorted (((windowed df num_draws).flatMap
          (fun r => consecPairs r.numbers)).foldl bumpCount [])
        = List.insertionSort keyLe (((windowed df num_draws).flatMap
          (fun r => consecPairs r.numbers)).foldl bumpCount []) from rfl,
      hperm.mem_iff,
      mem_assoc_of_nodup_keys _ p c (keys_nodup_foldl_bump _ [] (by simp)),
      lookup_foldl_bump]
    simp only [List.lookup, Option.getD_none, Nat.zero_add, and_true]
    by_cases hc : ((windowed df num_draws).flatMap
        (fun r => consecPairs r.numbers)).count p = 0
    · simp [hc]
      omega
    · simp [hc]
      intro h1
      omega

/-- Witness for the amended C6 at a concrete one-row table whose numbers
1 to 5 contain four consecutive pairs but count as one draw. -/
theorem C6_witness :
    windowed [mkRec "a" 1] none ≠ [] ∧
    (∃ dist : List (String × Nat),
      analyze_consecutive_numbers [mkRec "a" 1] none =
        [("consecutive_patterns", ConsecVal.dist dist),
         ("total_draws_with_consecutive", ConsecVal.nat
            ((windowed [mkRec "a" 1] none).countP
              (fun r => !(consecPairs r.numbers).isEmpty))),
         ("percentage_with_consecutive", ConsecVal.rat
            ((((windowed [mkRec "a" 1] none).countP
                (fun r => !(consecPairs r.numbers).isEmpty) : Nat) : ℚ)
              / ((windowed [mkRec "a" 1] none).length : ℚ) * 100))] ∧
      List.Sorted keyLe dist ∧
      (∀ p c, (p, c) ∈ dist ↔
        (0 < c ∧ ((windowed [mkRec "a" 1] none).flatMap
            (fun r => consecPairs r.numbers)).count p = c))) :=
  ⟨by decide, C6_amended [mkRec "a" 1] none (by decide)⟩

end Lottery539
